import Mathlib

/-!
Verification of the RVC model installer (`src/RVC-MODEL-INSTALLER.py`).

The filesystem is modelled as a flat association list from absolute paths
(lists of components) to nodes (directory marker, or file with contents); the
first binding for a key wins.  Every destination the program writes to is
first checked to be fresh (the collision loop, `mkdir` on a fresh folder), so
appending the new bindings at the end of the list is faithful.
-/

namespace RVC

/-- Absolute filesystem path, as its list of components. -/
abbrev FPath := List String

/-- Filesystem node: a directory marker or a file with contents. -/
inductive FData where
  | dir : FData
  | file : String → FData
deriving DecidableEq

/-- Flat filesystem: association list from path to node. -/
abbrev FS := List (FPath × FData)

/-- Look a path up in the filesystem (first binding wins). -/
def lookupFS : FS → FPath → Option FData
  | [], _ => none
  | e :: es, p => if e.1 = p then some e.2 else lookupFS es p

/-- Existence test, `Path.exists()`. -/
def existsFS (fs : FS) (p : FPath) : Bool := (lookupFS fs p).isSome

/-- Test whether `p` names an existing directory. -/
def isDirFS (fs : FS) (p : FPath) : Bool :=
  match lookupFS fs p with
  | some FData.dir => true
  | _ => false

/-- Index of the last dot in a list of characters, if any. -/
def rfindDotAux : List Char → Option Nat → Nat → Option Nat
  | [], acc, _ => acc
  | c :: cs, acc, i => rfindDotAux cs (if c = '.' then some i else acc) (i + 1)

/-- Index of the last dot of a name. -/
def rfindDot (cs : List Char) : Option Nat := rfindDotAux cs none 0

/-- Python `PurePath` name splitting into `stem` and `suffix`: the suffix is
the part from the last dot on, provided that dot is neither the first nor the
last character of the name; otherwise the suffix is empty and the stem is the
whole name. -/
def stemSuffix (name : String) : String × String :=
  let cs := name.data
  match rfindDot cs with
  | some i => if 0 < i ∧ i < cs.length - 1 then (⟨cs.take i⟩, ⟨cs.drop i⟩) else (name, "")
  | none => (name, "")

/-- Python `Path(...).stem` of a file name. -/
def stemOf (name : String) : String := (stemSuffix name).1

/-- Python `Path(...).suffix` of a file name. -/
def suffixOf (name : String) : String := (stemSuffix name).2

/-- Final component of a path, Python `Path(...).name`. -/
def lastName (p : FPath) : String := p.getLastD ""

/-- Model of `mkdir(parents=True)`: append a directory binding for every
missing prefix of `p`, including `p` itself.  All call sites in the program
invoke it on a destination that was just checked to be fresh. -/
def mkdirP (fs : FS) (p : FPath) : FS :=
  fs ++ ((List.inits p).filter (fun q => !existsFS fs q)).map (fun q => (q, FData.dir))

/-- Directory creation succeeds iff no prefix of the target names an existing
file (`os.makedirs` fails on such a conflict before creating anything, since
an existing file's parents already exist). -/
def parentsOk (fs : FS) (p : FPath) : Bool :=
  (List.inits p).all fun q =>
    match lookupFS fs q with
    | some (FData.file _) => false
    | _ => true

/-- Model of `shutil.copy2 src dst`: copy one file; fails when `src` is not an
existing file or the parent of `dst` is not an existing directory.  The
program only copies to fresh destinations, so the new binding is appended.
File metadata is not modelled. -/
def copy2 (fs : FS) (src dst : FPath) : FS × Bool :=
  match lookupFS fs src with
  | some (FData.file c) =>
    if isDirFS fs dst.dropLast then (fs ++ [(dst, FData.file c)], true) else (fs, false)
  | _ => (fs, false)

/-- Model of `shutil.copytree src dst`: make `dst` (and its missing parents),
then copy every strict descendant of `src` to the corresponding path under
`dst`. -/
def copytree (fs : FS) (src dst : FPath) : FS :=
  mkdirP fs dst ++ fs.filterMap fun e =>
    if src.isPrefixOf e.1 ∧ e.1 ≠ src then some (dst ++ e.1.drop src.length, e.2) else none

/-- Candidate destination names tried by the collision loop: the base name
itself, then `base_1`, `base_2`, … with a decimal counter
(`f"{model_name}_{counter}"`). -/
def nameAt (base : String) : Nat → String
  | 0 => base
  | k + 1 => base ++ "_" ++ Nat.repr (k + 1)

/-- Candidate `k` is taken under `root`. -/
def occupied (fs : FS) (root : FPath) (base : String) (k : Nat) : Bool :=
  existsFS fs (root ++ [nameAt base k])

/-- The collision loop `while dest.exists(): counter += 1`, walking candidate
indices upwards from `k`; `fuel` bounds the walk and is always chosen large
enough (see `destIdx_free`). -/
def searchFree (fs : FS) (root : FPath) (base : String) : Nat → Nat → Nat
  | 0, k => k
  | fuel + 1, k => if occupied fs root base k then searchFree fs root base fuel (k + 1) else k

/-- Index of the candidate name the collision loop stops at. -/
def destIdx (fs : FS) (root : FPath) (base : String) : Nat :=
  searchFree fs root base (fs.length + 1) 0

/-- Destination name picked by the collision policy for `base` under `root`. -/
def destName (fs : FS) (root : FPath) (base : String) : String :=
  nameAt base (destIdx fs root base)

/-- Result of an import operation. -/
inductive Outcome where
  | ok | errNotExist | errCopy
deriving DecidableEq

/-- Model of `ModelInstaller.handle_dropped_item` on a single path (source
lines 188-221): a missing source is an error; a `.pth` file gets a fresh
folder named after its stem and is copied inside; any other file is copied to
a fresh path named after its stem; a directory is recursively copied to a
fresh path named after itself. -/
def handleSingle (fs : FS) (root : FPath) (src : FPath) : FS × Outcome :=
  match lookupFS fs src with
  | none => (fs, Outcome.errNotExist)
  | some (FData.file _) =>
    let name := lastName src
    if suffixOf name = ".pth" then
      let d := root ++ [destName fs root (stemOf name)]
      if parentsOk fs d then
        let r := copy2 (mkdirP fs d) src (d ++ [name])
        (r.1, if r.2 then Outcome.ok else Outcome.errCopy)
      else (fs, Outcome.errCopy)
    else
      let d := root ++ [destName fs root (stemOf name)]
      let r := copy2 fs src d
      (r.1, if r.2 then Outcome.ok else Outcome.errCopy)
  | some FData.dir =>
    let d := root ++ [destName fs root (lastName src)]
    if parentsOk fs d then (copytree fs src d, Outcome.ok) else (fs, Outcome.errCopy)

/-- Name test for the weights extension. -/
def isPthName (p : FPath) : Bool := suffixOf (lastName p) == ".pth"

/-- Name test for the index extension. -/
def isIndexName (p : FPath) : Bool := suffixOf (lastName p) == ".index"

/-- Model of `ModelInstaller.handle_dropped_item` on a list of paths (source
lines 161-186): when the batch holds exactly one `.pth` and exactly one
`.index` item they are copied as a pair into one fresh folder named after the
`.pth` item's stem (any further items are not touched); otherwise every item
is imported independently by the single-item rule, in order. -/
def handleList (fs : FS) (root : FPath) (srcs : List FPath) : FS × Outcome :=
  let pths := srcs.filter isPthName
  let idxs := srcs.filter isIndexName
  if pths.length = 1 ∧ idxs.length = 1 then
    let p := pths.headD []
    let q := idxs.headD []
    let d := root ++ [destName fs root (stemOf (lastName p))]
    if parentsOk fs d then
      let r1 := copy2 (mkdirP fs d) p (d ++ [lastName p])
      if r1.2 then
        let r2 := copy2 r1.1 q (d ++ [lastName q])
        (r2.1, if r2.2 then Outcome.ok else Outcome.errCopy)
      else (r1.1, Outcome.errCopy)
    else (fs, Outcome.errCopy)
  else
    (srcs.foldl (fun acc s => (handleSingle acc root s).1) fs, Outcome.ok)

/-- Validation status of a model folder. -/
inductive Status where
  | empty | missing | complete
deriving DecidableEq

/-- Immediate children of directory `d`: pairs of child name and node
(`iterdir`). -/
def immediateChildren (fs : FS) (d : FPath) : List (String × FData) :=
  fs.filterMap fun e =>
    if e.1 = d ++ [lastName e.1] then some (lastName e.1, e.2) else none

/-- Test for the file constructor. -/
def isFileData : FData → Bool
  | FData.file _ => true
  | FData.dir => false

/-- Status derived in `load_models` (source lines 140-156): empty when the
folder has no children at all; otherwise complete iff a `.pth` file and an
`.index` file are both among its immediate file children, else missing. -/
def folderStatus (fs : FS) (d : FPath) : Status :=
  let cs := immediateChildren fs d
  let hasPth := cs.any fun c => isFileData c.2 && (suffixOf c.1 == ".pth")
  let hasIndex := cs.any fun c => isFileData c.2 && (suffixOf c.1 == ".index")
  if cs.isEmpty then Status.empty
  else if !hasPth || !hasIndex then Status.missing
  else Status.complete

/-- Names of the immediate subdirectories of `root` (`iterdir` filtered by
`is_dir`). -/
def dirNames (fs : FS) (root : FPath) : List String :=
  fs.filterMap fun e =>
    match e.2 with
    | FData.dir => if e.1 = root ++ [lastName e.1] then some (lastName e.1) else none
    | FData.file _ => none

/-- Model of `ModelInstaller.load_models` (source lines 134-159).  When the
root is missing, `mkdir(parents=True)` is attempted: it raises an uncaught
`NotADirectoryError` when a prefix of the root names an existing file — with
no directory created first, since under the parent-closure invariant every
prefix of that file already exists — modelled by a `none` listing with the
filesystem unchanged.  When the root exists but is not a directory, the
`iterdir` call raises instead, likewise `none`.  Otherwise the immediate
subdirectories of the (possibly just created) root are listed sorted by
name, each with its derived status. -/
def load_models (fs : FS) (root : FPath) : FS × Option (List (String × Status)) :=
  if existsFS fs root then
    if isDirFS fs root then
      (fs, some ((List.insertionSort (· ≤ ·) (dirNames fs root)).map
        (fun n => (n, folderStatus fs (root ++ [n])))))
    else (fs, none)
  else
    if parentsOk fs root then
      (mkdirP fs root,
        some ((List.insertionSort (· ≤ ·) (dirNames (mkdirP fs root) root)).map
          (fun n => (n, folderStatus (mkdirP fs root) (root ++ [n])))))
    else (fs, none)

/-- Text shown in the list widget for an entry: the folder name, with a glyph
appended when the folder is empty or missing required files. -/
def displayText : String × Status → String
  | (n, Status.empty) => n ++ " ❔"
  | (n, Status.missing) => n ++ " ⚠️"
  | (n, Status.complete) => n

/-- Result of the rename operation. -/
inductive ROutcome where
  | noop | errExists | errRenameFailed | renamed
deriving DecidableEq

/-- Directory rename: every path at or below `old` is rebased onto `new`. -/
def renamePath (fs : FS) (old new : FPath) : FS :=
  fs.map fun e => if old.isPrefixOf e.1 then (new ++ e.1.drop old.length, e.2) else e

/-- Model of `ModelInstaller.rename_model` (source lines 243-260).  `disp` is
the text of the selected list item, `newName` and `ok` the dialog result.  On
a cancelled dialog, empty input, or input equal to the item text, nothing
happens; if the target name exists the exists-error is shown; otherwise
`Path.rename` is attempted, which fails when the source path (root joined
with the item text) does not exist. -/
def rename_model (fs : FS) (root : FPath) (disp newName : String) (ok : Bool) :
    FS × ROutcome :=
  if ok ∧ newName ≠ "" ∧ newName ≠ disp then
    if existsFS fs (root ++ [newName]) then (fs, ROutcome.errExists)
    else if existsFS fs (root ++ [disp]) then
      (renamePath fs (root ++ [disp]) (root ++ [newName]), ROutcome.renamed)
    else (fs, ROutcome.errRenameFailed)
  else (fs, ROutcome.noop)

/-- State of the persisted-path file: absent, present but unreadable, or
readable with the given contents. -/
inductive PathFile where
  | absent | unreadable | readable (content : String)

/-- Default models path from the source head. -/
def DEFAULT_MODELS_PATH : String :=
  "C:\\AI Programs\\Retrieval-based-Voice-Conversion-WebUI\\models\\rvc_models"

/-- Model of Python `str.strip()`: drop leading and trailing whitespace. -/
def pyStrip (s : String) : String :=
  ⟨((s.data.dropWhile Char.isWhitespace).reverse.dropWhile Char.isWhitespace).reverse⟩

/-- Model of `get_model_path` (source lines 14-22): on a missing file, a read
error, or contents that strip to the empty string, the default path is used;
otherwise the stripped contents are the root. -/
def get_model_path : PathFile → String
  | PathFile.absent => DEFAULT_MODELS_PATH
  | PathFile.unreadable => DEFAULT_MODELS_PATH
  | PathFile.readable c => if pyStrip c = "" then DEFAULT_MODELS_PATH else pyStrip c

/-- Numeric value of a decimal digit character. -/
def charToDigit (c : Char) : Nat := c.toNat - 48

/-- Decimal decoding of a digit string. -/
def decodeDigits (cs : List Char) : Nat := cs.foldl (fun a c => a * 10 + charToDigit c) 0

/-- C10: reading the persisted Model Root never raises and falls back to the
fixed default path not only when the persistence file is absent, but also
when it is unreadable or strips to whitespace only; non-empty stripped
contents are returned as the root path. -/
theorem get_model_path_spec :
    get_model_path PathFile.absent = DEFAULT_MODELS_PATH ∧
    get_model_path PathFile.unreadable = DEFAULT_MODELS_PATH ∧
    (∀ s : String, pyStrip s = "" →
      get_model_path (PathFile.readable s) = DEFAULT_MODELS_PATH) ∧
    (∀ s : String, pyStrip s ≠ "" →
      get_model_path (PathFile.readable s) = pyStrip s) := by
  refine ⟨rfl, rfl, ?_, ?_⟩ <;> intro s h <;> simp [get_model_path, h]

/-- Witness for `get_model_path_spec`: whitespace-only contents fall back to
the default, non-blank contents are returned stripped. -/
theorem get_model_path_spec_witness :
    pyStrip "  \t " = "" ∧
    get_model_path (PathFile.readable "  \t ") = DEFAULT_MODELS_PATH ∧
    pyStrip " C:\\voices " ≠ "" ∧
    get_model_path (PathFile.readable " C:\\voices ") = pyStrip " C:\\voices " :=
  ⟨by decide, get_model_path_spec.2.2.1 "  \t " (by decide),
    by decide, get_model_path_spec.2.2.2 " C:\\voices " (by decide)⟩

/-- C6: when the new name is empty, equal to the selected entry's text, or an
existing folder name under the root, rename leaves the filesystem untouched
and either silently does nothing or shows the name-exists error; renaming an
entry to its own name in particular is the silent no-op. -/
theorem rename_guard_spec (fs : FS) (root : FPath) (disp newName : String) (ok : Bool)
    (h : newName = "" ∨ newName = disp ∨ lookupFS fs (root ++ [newName]) = some FData.dir) :
    (rename_model fs root disp newName ok).1 = fs ∧
    ((rename_model fs root disp newName ok).2 = ROutcome.noop ∨
      (rename_model fs root disp newName ok).2 = ROutcome.errExists) ∧
    (newName = disp → (rename_model fs root disp newName ok).2 = ROutcome.noop) := by
  unfold rename_model
  by_cases hg : ok ∧ newName ≠ "" ∧ newName ≠ disp
  · obtain ⟨hok, h1, h2⟩ := hg
    rcases h with h | h | h
    · exact absurd h h1
    · exact absurd h h2
    · have hex : existsFS fs (root ++ [newName]) = true := by
        simp [existsFS, h]
      rw [if_pos ⟨hok, h1, h2⟩, if_pos hex]
      exact ⟨rfl, Or.inr rfl, fun he => absurd he h2⟩
  · rw [if_neg hg]
    exact ⟨rfl, Or.inl rfl, fun _ => rfl⟩

/-- Witness for `rename_guard_spec`: renaming the listed folder `a` to its own
name on a concrete filesystem. -/
theorem rename_guard_spec_witness :
    (rename_model [([], FData.dir), (["m"], FData.dir), (["m", "a"], FData.dir)]
        ["m"] "a" "a" true).1 =
      [([], FData.dir), (["m"], FData.dir), (["m", "a"], FData.dir)] ∧
    ((rename_model [([], FData.dir), (["m"], FData.dir), (["m", "a"], FData.dir)]
        ["m"] "a" "a" true).2 = ROutcome.noop ∨
      (rename_model [([], FData.dir), (["m"], FData.dir), (["m", "a"], FData.dir)]
        ["m"] "a" "a" true).2 = ROutcome.errExists) ∧
    ("a" = "a" →
      (rename_model [([], FData.dir), (["m"], FData.dir), (["m", "a"], FData.dir)]
        ["m"] "a" "a" true).2 = ROutcome.noop) :=
  rename_guard_spec _ ["m"] "a" "a" true (Or.inr (Or.inl rfl))

theorem lookupFS_append_some {fs : FS} {p : FPath} {x : FData} (l : FS)
    (h : lookupFS fs p = some x) : lookupFS (fs ++ l) p = some x := by
  induction fs with
  | nil => simp [lookupFS] at h
  | cons e es ih =>
    rw [List.cons_append]
    simp only [lookupFS] at h ⊢
    by_cases he : e.1 = p
    · rwa [if_pos he] at h ⊢
    · rw [if_neg he] at h ⊢
      exact ih h

theorem lookupFS_append_none {fs : FS} {p : FPath} (l : FS)
    (h : lookupFS fs p = none) : lookupFS (fs ++ l) p = lookupFS l p := by
  induction fs with
  | nil => rfl
  | cons e es ih =>
    rw [List.cons_append]
    simp only [lookupFS] at h ⊢
    by_cases he : e.1 = p
    · rw [if_pos he] at h
      exact absurd h (by simp)
    · rw [if_neg he] at h ⊢
      exact ih h

theorem lookupFS_mem {fs : FS} {p : FPath} {x : FData}
    (h : lookupFS fs p = some x) : (p, x) ∈ fs := by
  induction fs with
  | nil => simp [lookupFS] at h
  | cons e es ih =>
    simp only [lookupFS] at h
    by_cases he : e.1 = p
    · rw [if_pos he] at h
      have hx : e.2 = x := by injection h
      have : e = (p, x) := Prod.ext he hx
      rw [← this]
      exact List.mem_cons_self e es
    · rw [if_neg he] at h
      exact List.mem_cons_of_mem _ (ih h)

theorem mem_lookupFS_isSome {fs : FS} {p : FPath} {x : FData}
    (h : (p, x) ∈ fs) : (lookupFS fs p).isSome := by
  induction fs with
  | nil => simp at h
  | cons e es ih =>
    simp only [lookupFS]
    by_cases he : e.1 = p
    · simp [he]
    · rw [if_neg he]
      rcases List.mem_cons.mp h with h | h
      · exact absurd (congrArg Prod.fst h).symm he
      · exact ih h

theorem lookupFS_eq_none_iff {fs : FS} {p : FPath} :
    lookupFS fs p = none ↔ ∀ x, (p, x) ∉ fs := by
  constructor
  · intro h x hx
    have hs := mem_lookupFS_isSome hx
    rw [h] at hs
    exact absurd hs (by simp)
  · intro h
    cases hl : lookupFS fs p with
    | none => rfl
    | some x => exact absurd (lookupFS_mem hl) (h x)

theorem mem_lookupFS {fs : FS} (hnd : (fs.map Prod.fst).Nodup) {p : FPath} {x : FData}
    (h : (p, x) ∈ fs) : lookupFS fs p = some x := by
  induction fs with
  | nil => simp at h
  | cons e es ih =>
    simp only [List.map_cons, List.nodup_cons] at hnd
    simp only [lookupFS]
    rcases List.mem_cons.mp h with h | h
    · rw [if_pos (congrArg Prod.fst h).symm]
      rw [(congrArg Prod.snd h).symm]
    · by_cases he : e.1 = p
      · exact absurd (he ▸ List.mem_map_of_mem Prod.fst h) hnd.1
      · rw [if_neg he]
        exact ih hnd.2 h

theorem decodeDigits_concat (cs : List Char) (c : Char) :
    decodeDigits (cs ++ [c]) = decodeDigits cs * 10 + charToDigit c := by
  simp [decodeDigits, List.foldl_append]

theorem toDigitsCore_append10 : ∀ (f n : Nat) (ds : List Char),
    Nat.toDigitsCore 10 f n ds = Nat.toDigitsCore 10 f n [] ++ ds := by
  intro f
  induction f with
  | zero => intro n ds; simp [Nat.toDigitsCore]
  | succ f ih =>
    intro n ds
    simp only [Nat.toDigitsCore]
    by_cases h : n / 10 = 0
    · simp [h]
    · rw [if_neg h, if_neg h, ih (n / 10) (Nat.digitChar (n % 10) :: ds),
        ih (n / 10) [Nat.digitChar (n % 10)], List.append_assoc]
      rfl

theorem charToDigit_digitChar : ∀ d : Nat, d < 10 → charToDigit (Nat.digitChar d) = d := by
  decide

theorem decodeDigits_toDigitsCore : ∀ (f n : Nat), n < f →
    decodeDigits (Nat.toDigitsCore 10 f n []) = n := by
  intro f
  induction f with
  | zero => intro n h; omega
  | succ f ih =>
    intro n h
    simp only [Nat.toDigitsCore]
    by_cases h0 : n / 10 = 0
    · rw [if_pos h0]
      have hlt : n < 10 := by omega
      have : ([Nat.digitChar (n % 10)] : List Char) = [] ++ [Nat.digitChar (n % 10)] := rfl
      rw [this, decodeDigits_concat, charToDigit_digitChar (n % 10) (by omega)]
      simp [decodeDigits]
      omega
    · rw [if_neg h0, toDigitsCore_append10, decodeDigits_concat,
        ih (n / 10) (by omega), charToDigit_digitChar (n % 10) (by omega)]
      omega

theorem decodeDigits_repr (n : Nat) : decodeDigits (Nat.repr n).data = n :=
  decodeDigits_toDigitsCore (n + 1) n (Nat.lt_succ_self n)

theorem repr_inj {m n : Nat} (h : Nat.repr m = Nat.repr n) : m = n := by
  have h2 := congrArg (fun s => decodeDigits s.data) h
  simpa [decodeDigits_repr] using h2

theorem nameAt_inj (base : String) : ∀ {j k : Nat}, nameAt base j = nameAt base k → j = k := by
  intro j k h
  match j, k with
  | 0, 0 => rfl
  | 0, k + 1 =>
    exfalso
    have hlen := congrArg (fun s => s.data.length) h
    simp [nameAt, String.data_append] at hlen
  | j + 1, 0 =>
    exfalso
    have hlen := congrArg (fun s => s.data.length) h
    simp [nameAt, String.data_append] at hlen
  | j + 1, k + 1 =>
    have hd := congrArg String.data h
    simp only [nameAt, String.data_append, List.append_assoc] at hd
    have hd2 : ("_".data ++ (Nat.repr (j + 1)).data : List Char)
        = "_".data ++ (Nat.repr (k + 1)).data := List.append_cancel_left hd
    have hd3 : (Nat.repr (j + 1)).data = (Nat.repr (k + 1)).data :=
      List.append_cancel_left hd2
    have hval := congrArg decodeDigits hd3
    rw [decodeDigits_repr, decodeDigits_repr] at hval
    omega

theorem exists_free (fs : FS) (root : FPath) (base : String) :
    ∃ k, k ≤ fs.length ∧ occupied fs root base k = false := by
  by_contra hc
  push_neg at hc
  have hocc : ∀ k, k ≤ fs.length → occupied fs root base k = true := by
    intro k hk
    cases h : occupied fs root base k
    · exact absurd h (hc k hk)
    · rfl
  have hinj : Function.Injective (fun k : Nat => root ++ [nameAt base k]) := by
    intro a b hab
    have h1 := List.append_cancel_left hab
    simp only [List.cons.injEq, and_true] at h1
    exact nameAt_inj base h1
  have hnd : ((List.range (fs.length + 1)).map
      (fun k => root ++ [nameAt base k])).Nodup :=
    (List.nodup_range _).map hinj
  have hsub : ((List.range (fs.length + 1)).map (fun k => root ++ [nameAt base k]))
      ⊆ fs.map Prod.fst := by
    intro x hx
    simp only [List.mem_map, List.mem_range] at hx
    obtain ⟨k, hk, rfl⟩ := hx
    have ho := hocc k (by omega)
    simp only [occupied, existsFS] at ho
    obtain ⟨v, hv⟩ := Option.isSome_iff_exists.mp ho
    exact List.mem_map_of_mem Prod.fst (lookupFS_mem hv)
  have hle := (hnd.subperm hsub).length_le
  simp at hle

theorem searchFree_spec (fs : FS) (root : FPath) (base : String) :
    ∀ (f k : Nat), (∃ j, k ≤ j ∧ j < k + f ∧ occupied fs root base j = false) →
      occupied fs root base (searchFree fs root base f k) = false ∧
      k ≤ searchFree fs root base f k ∧
      ∀ j, k ≤ j → j < searchFree fs root base f k → occupied fs root base j = true := by
  intro f
  induction f with
  | zero =>
    intro k h
    obtain ⟨j, h1, h2, _⟩ := h
    omega
  | succ f ih =>
    intro k hex
    simp only [searchFree]
    by_cases hk : occupied fs root base k = true
    · rw [if_pos hk]
      have hex' : ∃ j, k + 1 ≤ j ∧ j < (k + 1) + f ∧ occupied fs root base j = false := by
        obtain ⟨j, h1, h2, h3⟩ := hex
        refine ⟨j, ?_, by omega, h3⟩
        rcases Nat.eq_or_lt_of_le h1 with rfl | hlt
        · rw [hk] at h3; cases h3
        · omega
      obtain ⟨hfree, hge, hall⟩ := ih (k + 1) hex'
      refine ⟨hfree, by omega, ?_⟩
      intro j hj1 hj2
      rcases Nat.eq_or_lt_of_le hj1 with rfl | hlt
      · exact hk
      · exact hall j (by omega) hj2
    · have hk' : occupied fs root base k = false := by
        cases h : occupied fs root base k
        · rfl
        · exact absurd h hk
      rw [if_neg hk]
      exact ⟨hk', Nat.le_refl k, fun j h1 h2 => by omega⟩

theorem destIdx_free (fs : FS) (root : FPath) (base : String) :
    occupied fs root base (destIdx fs root base) = false ∧
    ∀ j, j < destIdx fs root base → occupied fs root base j = true := by
  obtain ⟨k, hk, hfree⟩ := exists_free fs root base
  obtain ⟨h1, _, h3⟩ := searchFree_spec fs root base (fs.length + 1) 0
    ⟨k, by omega, by omega, hfree⟩
  exact ⟨h1, fun j hj => h3 j (by omega) hj⟩

/-- C5: when the computed destination name is already taken under the root,
the name actually used appends the first free decimal suffix, starting at 1,
as determined by the names present on the filesystem. -/
theorem destName_collision_spec (fs : FS) (root : FPath) (base : String)
    (h : existsFS fs (root ++ [base]) = true) :
    ∃ k, 1 ≤ k ∧
      destName fs root base = base ++ "_" ++ Nat.repr k ∧
      existsFS fs (root ++ [destName fs root base]) = false ∧
      ∀ j, 1 ≤ j → j < k → existsFS fs (root ++ [base ++ "_" ++ Nat.repr j]) = true := by
  obtain ⟨hfree, hall⟩ := destIdx_free fs root base
  have h0 : destIdx fs root base ≠ 0 := by
    intro h0
    rw [h0] at hfree
    simp only [occupied, nameAt] at hfree
    rw [h] at hfree
    cases hfree
  obtain ⟨m, hm⟩ : ∃ m, destIdx fs root base = m + 1 :=
    ⟨destIdx fs root base - 1, by omega⟩
  refine ⟨m + 1, by omega, ?_, ?_, ?_⟩
  · rw [destName, hm]
    rfl
  · simpa [occupied, destName] using hfree
  · intro j hj1 hj2
    have hj := hall j (by omega)
    obtain ⟨j', rfl⟩ : ∃ j', j = j' + 1 := ⟨j - 1, by omega⟩
    simpa [occupied, nameAt] using hj

theorem destName_fresh (fs : FS) (root : FPath) (base : String) :
    lookupFS fs (root ++ [destName fs root base]) = none := by
  have h1 := (destIdx_free fs root base).1
  simp only [occupied, existsFS, destName] at h1 ⊢
  cases hl : lookupFS fs (root ++ [nameAt base (destIdx fs root base)]) with
  | none => rfl
  | some v => rw [hl] at h1; simp at h1

/-- Witness for `destName_collision_spec`: importing `voiceA.pth` twice into
an initially empty root yields folders `voiceA` and `voiceA_1`, and the
collision policy instantiated on the state after the first import. -/
theorem destName_collision_witness :
    (lookupFS (handleSingle (handleSingle
        [([], FData.dir), (["m"], FData.dir), (["s"], FData.dir),
          (["s", "voiceA.pth"], FData.file "P")]
        ["m"] ["s", "voiceA.pth"]).1 ["m"] ["s", "voiceA.pth"]).1
        ["m", "voiceA"] = some FData.dir ∧
      lookupFS (handleSingle (handleSingle
        [([], FData.dir), (["m"], FData.dir), (["s"], FData.dir),
          (["s", "voiceA.pth"], FData.file "P")]
        ["m"] ["s", "voiceA.pth"]).1 ["m"] ["s", "voiceA.pth"]).1
        ["m", "voiceA_1"] = some FData.dir) ∧
    (∃ k, 1 ≤ k ∧
      destName [(["m"], FData.dir), (["m", "voiceA"], FData.dir)] ["m"] "voiceA"
        = "voiceA" ++ "_" ++ Nat.repr k ∧
      existsFS [(["m"], FData.dir), (["m", "voiceA"], FData.dir)]
        (["m"] ++ [destName [(["m"], FData.dir), (["m", "voiceA"], FData.dir)]
          ["m"] "voiceA"]) = false ∧
      ∀ j, 1 ≤ j → j < k →
        existsFS [(["m"], FData.dir), (["m", "voiceA"], FData.dir)]
          (["m"] ++ ["voiceA" ++ "_" ++ Nat.repr j]) = true) :=
  ⟨by decide,
    destName_collision_spec [(["m"], FData.dir), (["m", "voiceA"], FData.dir)]
      ["m"] "voiceA" (by decide)⟩

theorem extends_append {fs fs1 fs2 : FS} (h1 : ∃ a, fs1 = fs ++ a)
    (h2 : ∃ b, fs2 = fs1 ++ b) : ∃ c, fs2 = fs ++ c := by
  obtain ⟨a, rfl⟩ := h1
  obtain ⟨b, rfl⟩ := h2
  exact ⟨a ++ b, by rw [List.append_assoc]⟩

theorem mkdirP_extends (fs : FS) (p : FPath) : ∃ ext, mkdirP fs p = fs ++ ext :=
  ⟨_, rfl⟩

theorem copy2_extends (fs : FS) (src dst : FPath) :
    ∃ ext, (copy2 fs src dst).1 = fs ++ ext := by
  unfold copy2
  split
  · split
    · exact ⟨_, rfl⟩
    · exact ⟨[], by simp⟩
  · exact ⟨[], by simp⟩

theorem copytree_extends (fs : FS) (src dst : FPath) :
    ∃ ext, copytree fs src dst = fs ++ ext :=
  extends_append (mkdirP_extends fs dst) ⟨_, rfl⟩

theorem handleSingle_extends (fs : FS) (root src : FPath) :
    ∃ ext, (handleSingle fs root src).1 = fs ++ ext := by
  unfold handleSingle
  split
  · exact ⟨[], by simp⟩
  · dsimp only
    split
    · split
      · exact extends_append (mkdirP_extends _ _) (copy2_extends _ _ _)
      · exact ⟨[], by simp⟩
    · exact copy2_extends _ _ _
  · dsimp only
    split
    · exact copytree_extends _ _ _
    · exact ⟨[], by simp⟩

theorem foldl_handleSingle_extends (root : FPath) (srcs : List FPath) :
    ∀ fs : FS, ∃ ext, srcs.foldl (fun acc s => (handleSingle acc root s).1) fs = fs ++ ext := by
  induction srcs with
  | nil => intro fs; exact ⟨[], by simp⟩
  | cons s ss ih =>
    intro fs
    rw [List.foldl_cons]
    exact extends_append (handleSingle_extends fs root s) (ih _)

theorem handleList_extends (fs : FS) (root : FPath) (srcs : List FPath) :
    ∃ ext, (handleList fs root srcs).1 = fs ++ ext := by
  rw [show (handleList fs root srcs).1 =
      (if (srcs.filter isPthName).length = 1 ∧ (srcs.filter isIndexName).length = 1 then
        let p := (srcs.filter isPthName).headD []
        let q := (srcs.filter isIndexName).headD []
        let d := root ++ [destName fs root (stemOf (lastName p))]
        if parentsOk fs d = true then
          let r1 := copy2 (mkdirP fs d) p (d ++ [lastName p])
          if r1.2 = true then
            let r2 := copy2 r1.1 q (d ++ [lastName q])
            (r2.1, if r2.2 = true then Outcome.ok else Outcome.errCopy)
          else (r1.1, Outcome.errCopy)
        else (fs, Outcome.errCopy)
      else (List.foldl (fun acc s => (handleSingle acc root s).1) fs srcs, Outcome.ok)).1
    from rfl]
  split
  · dsimp only
    split
    · split
      · exact extends_append
          (extends_append (mkdirP_extends _ _) (copy2_extends _ _ _))
          (copy2_extends _ _ _)
      · exact extends_append (mkdirP_extends _ _) (copy2_extends _ _ _)
    · exact ⟨[], by simp⟩
  · exact foldl_handleSingle_extends root srcs fs

/-- C8: an import, whether of a single item or of a batch, never deletes,
moves, or modifies anything already on the filesystem: it only appends
copies, so every path bound before the import, the source items included, is
still bound to the same node afterwards, whatever the outcome. -/
theorem import_preserves_existing (fs : FS) (root src p : FPath) (x : FData)
    (h : lookupFS fs p = some x) :
    lookupFS (handleSingle fs root src).1 p = some x ∧
    ∀ srcs : List FPath, lookupFS (handleList fs root srcs).1 p = some x := by
  constructor
  · obtain ⟨ext, he⟩ := handleSingle_extends fs root src
    rw [he]
    exact lookupFS_append_some ext h
  · intro srcs
    obtain ⟨ext, he⟩ := handleList_extends fs root srcs
    rw [he]
    exact lookupFS_append_some ext h

/-- Witness for `import_preserves_existing`: the source file survives its
own import on a concrete filesystem. -/
theorem import_preserves_existing_witness :
    lookupFS (handleSingle
      [([], FData.dir), (["m"], FData.dir), (["s"], FData.dir),
        (["s", "voiceA.pth"], FData.file "P")] ["m"] ["s", "voiceA.pth"]).1
      ["s", "voiceA.pth"] = some (FData.file "P") ∧
    ∀ srcs : List FPath, lookupFS (handleList
      [([], FData.dir), (["m"], FData.dir), (["s"], FData.dir),
        (["s", "voiceA.pth"], FData.file "P")] ["m"] srcs).1
      ["s", "voiceA.pth"] = some (FData.file "P") :=
  import_preserves_existing _ ["m"] ["s", "voiceA.pth"] _ _ (by decide)

/-- C1 counterexample: dropping `voiceA.pth`, `voiceA.index` and `extra.txt`
together.  The claim predicts a fallback to three independent imports, with
`extra.txt` copied to an entry `extra` and `voiceA.index` landing in
`voiceA_1`; the code instead takes the pair branch because the batch contains
exactly one `.pth` and one `.index` item, so one folder `voiceA` receives the
two files and `extra.txt` is never copied at all. -/
theorem batch_fallback_counterexample :
    lookupFS [([], FData.dir), (["m"], FData.dir), (["s"], FData.dir),
        (["s", "voiceA.pth"], FData.file "P"), (["s", "voiceA.index"], FData.file "I"),
        (["s", "extra.txt"], FData.file "T")] ["s", "extra.txt"] = some (FData.file "T") ∧
    lookupFS (handleList [([], FData.dir), (["m"], FData.dir), (["s"], FData.dir),
        (["s", "voiceA.pth"], FData.file "P"), (["s", "voiceA.index"], FData.file "I"),
        (["s", "extra.txt"], FData.file "T")] ["m"]
        [["s", "voiceA.pth"], ["s", "voiceA.index"], ["s", "extra.txt"]]).1
      ["m", "extra"] = none ∧
    lookupFS (handleList [([], FData.dir), (["m"], FData.dir), (["s"], FData.dir),
        (["s", "voiceA.pth"], FData.file "P"), (["s", "voiceA.index"], FData.file "I"),
        (["s", "extra.txt"], FData.file "T")] ["m"]
        [["s", "voiceA.pth"], ["s", "voiceA.index"], ["s", "extra.txt"]]).1
      ["m", "voiceA_1"] = none ∧
    lookupFS (handleList [([], FData.dir), (["m"], FData.dir), (["s"], FData.dir),
        (["s", "voiceA.pth"], FData.file "P"), (["s", "voiceA.index"], FData.file "I"),
        (["s", "extra.txt"], FData.file "T")] ["m"]
        [["s", "voiceA.pth"], ["s", "voiceA.index"], ["s", "extra.txt"]]).1
      ["m", "voiceA"] = some FData.dir ∧
    lookupFS (handleList [([], FData.dir), (["m"], FData.dir), (["s"], FData.dir),
        (["s", "voiceA.pth"], FData.file "P"), (["s", "voiceA.index"], FData.file "I"),
        (["s", "extra.txt"], FData.file "T")] ["m"]
        [["s", "voiceA.pth"], ["s", "voiceA.index"], ["s", "extra.txt"]]).1
      ["m", "voiceA", "voiceA.pth"] = some (FData.file "P") ∧
    lookupFS (handleList [([], FData.dir), (["m"], FData.dir), (["s"], FData.dir),
        (["s", "voiceA.pth"], FData.file "P"), (["s", "voiceA.index"], FData.file "I"),
        (["s", "extra.txt"], FData.file "T")] ["m"]
        [["s", "voiceA.pth"], ["s", "voiceA.index"], ["s", "extra.txt"]]).1
      ["m", "voiceA", "voiceA.index"] = some (FData.file "I") := by
  decide

/-- C1 (amended): a batch that does not contain exactly one weights file and
exactly one index file is imported by applying the single-item rule to every
item independently, in order; a batch that does contain exactly one of each,
even alongside further items, is instead treated as a pair and the further
items are not imported. -/
theorem batch_fallback_spec (fs : FS) (root : FPath) (srcs : List FPath)
    (h : ¬((srcs.filter isPthName).length = 1 ∧ (srcs.filter isIndexName).length = 1)) :
    handleList fs root srcs =
      (srcs.foldl (fun acc s => (handleSingle acc root s).1) fs, Outcome.ok) := by
  unfold handleList
  rw [if_neg h]

/-- Witness for `batch_fallback_spec`: a batch of two weights files falls back
to two independent single-item imports. -/
theorem batch_fallback_spec_witness :
    handleList [([], FData.dir), (["m"], FData.dir), (["s"], FData.dir),
        (["s", "a.pth"], FData.file "A"), (["s", "b.pth"], FData.file "B")] ["m"]
        [["s", "a.pth"], ["s", "b.pth"]] =
      ([["s", "a.pth"], ["s", "b.pth"]].foldl
        (fun acc s => (handleSingle acc ["m"] s).1)
        [([], FData.dir), (["m"], FData.dir), (["s"], FData.dir),
          (["s", "a.pth"], FData.file "A"), (["s", "b.pth"], FData.file "B")],
        Outcome.ok) :=
  batch_fallback_spec _ ["m"] _ (by decide)

theorem isDirFS_of_lookup {fs : FS} {p : FPath} (h : lookupFS fs p = some FData.dir) :
    isDirFS fs p = true := by
  unfold isDirFS
  rw [h]

theorem copy2_success {fs : FS} {src dst : FPath} {c : String}
    (hsrc : lookupFS fs src = some (FData.file c))
    (hdir : isDirFS fs dst.dropLast = true) :
    copy2 fs src dst = (fs ++ [(dst, FData.file c)], true) := by
  unfold copy2
  rw [hsrc]
  dsimp only
  rw [if_pos hdir]

/-- C3 counterexample: a single-item import of the existing file `extra.txt`
copies the file itself to the path `extra` directly under the Model Root.
The result is a plain file named `extra`; there is no subdirectory `extra`
containing the item, contrary to the claim. -/
theorem single_other_file_counterexample :
    (handleSingle [([], FData.dir), (["m"], FData.dir), (["s"], FData.dir),
        (["s", "extra.txt"], FData.file "T")] ["m"] ["s", "extra.txt"]).1 =
      [([], FData.dir), (["m"], FData.dir), (["s"], FData.dir),
        (["s", "extra.txt"], FData.file "T"), (["m", "extra"], FData.file "T")] ∧
    lookupFS (handleSingle [([], FData.dir), (["m"], FData.dir), (["s"], FData.dir),
        (["s", "extra.txt"], FData.file "T")] ["m"] ["s", "extra.txt"]).1
      ["m", "extra"] = some (FData.file "T") ∧
    lookupFS (handleSingle [([], FData.dir), (["m"], FData.dir), (["s"], FData.dir),
        (["s", "extra.txt"], FData.file "T")] ["m"] ["s", "extra.txt"]).1
      ["m", "extra", "extra.txt"] = none := by
  decide

/-- C3 (amended): a single-item import of an existing file whose extension is
not the weights extension, into an existing root, copies the file itself to a
fresh path directly under the Model Root named the item's base name with the
extension stripped (collision policy applied); no subdirectory is created and
the item is not placed inside a folder. -/
theorem single_other_file_spec (fs : FS) (root src : FPath) (c : String)
    (hsrc : lookupFS fs src = some (FData.file c))
    (hsuf : suffixOf (lastName src) ≠ ".pth")
    (hroot : lookupFS fs root = some FData.dir) :
    handleSingle fs root src =
      (fs ++ [(root ++ [destName fs root (stemOf (lastName src))], FData.file c)],
        Outcome.ok) ∧
    lookupFS fs (root ++ [destName fs root (stemOf (lastName src))]) = none := by
  refine ⟨?_, destName_fresh fs root (stemOf (lastName src))⟩
  unfold handleSingle
  rw [hsrc]
  dsimp only
  rw [if_neg hsuf]
  have hcopy : copy2 fs src (root ++ [destName fs root (stemOf (lastName src))]) =
      (fs ++ [(root ++ [destName fs root (stemOf (lastName src))], FData.file c)], true) := by
    refine copy2_success hsrc ?_
    rw [List.dropLast_concat]
    exact isDirFS_of_lookup hroot
  rw [hcopy]
  rfl

/-- Witness for `single_other_file_spec`, instantiated on a concrete
filesystem holding `extra.txt`. -/
theorem single_other_file_spec_witness :
    handleSingle [([], FData.dir), (["m"], FData.dir), (["s"], FData.dir),
        (["s", "extra.txt"], FData.file "T")] ["m"] ["s", "extra.txt"] =
      ([([], FData.dir), (["m"], FData.dir), (["s"], FData.dir),
          (["s", "extra.txt"], FData.file "T")] ++
        [(["m"] ++ [destName [([], FData.dir), (["m"], FData.dir), (["s"], FData.dir),
            (["s", "extra.txt"], FData.file "T")] ["m"]
            (stemOf (lastName ["s", "extra.txt"]))], FData.file "T")],
        Outcome.ok) ∧
    lookupFS [([], FData.dir), (["m"], FData.dir), (["s"], FData.dir),
        (["s", "extra.txt"], FData.file "T")]
      (["m"] ++ [destName [([], FData.dir), (["m"], FData.dir), (["s"], FData.dir),
          (["s", "extra.txt"], FData.file "T")] ["m"]
          (stemOf (lastName ["s", "extra.txt"]))]) = none :=
  single_other_file_spec _ ["m"] ["s", "extra.txt"] "T" (by decide) (by decide) (by decide)

theorem inits_concat (l : List String) (a : String) :
    List.inits (l ++ [a]) = List.inits l ++ [l ++ [a]] := by
  rw [List.inits_append]
  rfl

theorem mkdirP_fresh (fs : FS) (root : FPath) (x : String)
    (hroot : ∀ q ∈ List.inits root, existsFS fs q = true)
    (hfresh : lookupFS fs (root ++ [x]) = none) :
    mkdirP fs (root ++ [x]) = fs ++ [(root ++ [x], FData.dir)] := by
  unfold mkdirP
  congr 1
  rw [inits_concat, List.filter_append]
  have h1 : List.filter (fun q => !existsFS fs q) (List.inits root) = [] := by
    rw [List.filter_eq_nil_iff]
    intro q hq
    simp [hroot q hq]
  have h2 : existsFS fs (root ++ [x]) = false := by
    simp [existsFS, hfresh]
  rw [h1]
  simp [List.filter, h2]

theorem parentsOk_of_dirs (fs : FS) (root : FPath) (x : String)
    (hroot : ∀ q ∈ List.inits root, lookupFS fs q = some FData.dir)
    (hfresh : lookupFS fs (root ++ [x]) = none) :
    parentsOk fs (root ++ [x]) = true := by
  unfold parentsOk
  rw [inits_concat, List.all_append]
  have h1 : (List.inits root).all
      (fun q => match lookupFS fs q with
        | some (FData.file _) => false
        | _ => true) = true := by
    rw [List.all_eq_true]
    intro q hq
    rw [hroot q hq]
  have h2 : ([root ++ [x]] : List FPath).all
      (fun q => match lookupFS fs q with
        | some (FData.file _) => false
        | _ => true) = true := by
    rw [List.all_eq_true]
    intro q hq
    rw [List.mem_singleton] at hq
    subst hq
    rw [hfresh]
  rw [h1, h2]
  rfl

/-- C2: a batch containing exactly one weights file and exactly one index
file is imported as one logical model: exactly one fresh destination folder
is created under the Model Root, named by the collision policy applied to the
weights file's base name without extension, and both files are copied into
that one folder. -/
theorem pair_import_spec (fs : FS) (root : FPath) (srcs : List FPath)
    (p q : FPath) (cp ci : String)
    (hp : srcs.filter isPthName = [p])
    (hq : srcs.filter isIndexName = [q])
    (hsp : lookupFS fs p = some (FData.file cp))
    (hsq : lookupFS fs q = some (FData.file ci))
    (hroot : ∀ r ∈ List.inits root, lookupFS fs r = some FData.dir) :
    handleList fs root srcs =
      (fs ++ [(root ++ [destName fs root (stemOf (lastName p))], FData.dir),
          ((root ++ [destName fs root (stemOf (lastName p))]) ++ [lastName p],
            FData.file cp),
          ((root ++ [destName fs root (stemOf (lastName p))]) ++ [lastName q],
            FData.file ci)],
        Outcome.ok) ∧
    lookupFS fs (root ++ [destName fs root (stemOf (lastName p))]) = none := by
  have hfree : lookupFS fs (root ++ [destName fs root (stemOf (lastName p))]) = none :=
    destName_fresh fs root (stemOf (lastName p))
  refine ⟨?_, hfree⟩
  have hpar : parentsOk fs (root ++ [destName fs root (stemOf (lastName p))]) = true :=
    parentsOk_of_dirs fs root _ hroot hfree
  have hmk : mkdirP fs (root ++ [destName fs root (stemOf (lastName p))]) =
      fs ++ [(root ++ [destName fs root (stemOf (lastName p))], FData.dir)] :=
    mkdirP_fresh fs root _ (fun r hr => by simp [existsFS, hroot r hr]) hfree
  have hdir1 : lookupFS (fs ++ [(root ++ [destName fs root (stemOf (lastName p))],
      FData.dir)]) (root ++ [destName fs root (stemOf (lastName p))]) =
      some FData.dir := by
    rw [lookupFS_append_none _ hfree]
    simp [lookupFS]
  have hc1 : copy2 (fs ++ [(root ++ [destName fs root (stemOf (lastName p))],
        FData.dir)]) p
        ((root ++ [destName fs root (stemOf (lastName p))]) ++ [lastName p]) =
      (fs ++ [(root ++ [destName fs root (stemOf (lastName p))], FData.dir)] ++
        [((root ++ [destName fs root (stemOf (lastName p))]) ++ [lastName p],
          FData.file cp)], true) := by
    refine copy2_success (lookupFS_append_some _ hsp) ?_
    rw [List.dropLast_concat]
    exact isDirFS_of_lookup hdir1
  have hc2 : copy2 (fs ++ [(root ++ [destName fs root (stemOf (lastName p))],
        FData.dir)] ++
        [((root ++ [destName fs root (stemOf (lastName p))]) ++ [lastName p],
          FData.file cp)]) q
        ((root ++ [destName fs root (stemOf (lastName p))]) ++ [lastName q]) =
      (fs ++ [(root ++ [destName fs root (stemOf (lastName p))], FData.dir)] ++
        [((root ++ [destName fs root (stemOf (lastName p))]) ++ [lastName p],
          FData.file cp)] ++
        [((root ++ [destName fs root (stemOf (lastName p))]) ++ [lastName q],
          FData.file ci)], true) := by
    refine copy2_success (lookupFS_append_some _ (lookupFS_append_some _ hsq)) ?_
    rw [List.dropLast_concat]
    exact isDirFS_of_lookup (lookupFS_append_some _ hdir1)
  unfold handleList
  rw [hp, hq]
  rw [if_pos (by constructor <;> rfl :
    ([p] : List FPath).length = 1 ∧ ([q] : List FPath).length = 1)]
  dsimp only [List.headD]
  rw [if_pos hpar, hmk, hc1]
  dsimp only
  rw [if_pos rfl, hc2]
  dsimp only
  rw [if_pos rfl]
  simp

/-- Witness for `pair_import_spec`: dropping exactly `voiceA.pth` and
`voiceA.index` together on a concrete filesystem. -/
theorem pair_import_spec_witness :
    handleList [([], FData.dir), (["m"], FData.dir), (["s"], FData.dir),
        (["s", "voiceA.pth"], FData.file "P"), (["s", "voiceA.index"], FData.file "I")]
        ["m"] [["s", "voiceA.pth"], ["s", "voiceA.index"]] =
      ([([], FData.dir), (["m"], FData.dir), (["s"], FData.dir),
          (["s", "voiceA.pth"], FData.file "P"), (["s", "voiceA.index"], FData.file "I")] ++
        [(["m"] ++ [destName [([], FData.dir), (["m"], FData.dir), (["s"], FData.dir),
            (["s", "voiceA.pth"], FData.file "P"), (["s", "voiceA.index"], FData.file "I")]
            ["m"] (stemOf (lastName ["s", "voiceA.pth"]))], FData.dir),
          ((["m"] ++ [destName [([], FData.dir), (["m"], FData.dir), (["s"], FData.dir),
            (["s", "voiceA.pth"], FData.file "P"), (["s", "voiceA.index"], FData.file "I")]
            ["m"] (stemOf (lastName ["s", "voiceA.pth"]))]) ++
            [lastName ["s", "voiceA.pth"]], FData.file "P"),
          ((["m"] ++ [destName [([], FData.dir), (["m"], FData.dir), (["s"], FData.dir),
            (["s", "voiceA.pth"], FData.file "P"), (["s", "voiceA.index"], FData.file "I")]
            ["m"] (stemOf (lastName ["s", "voiceA.pth"]))]) ++
            [lastName ["s", "voiceA.index"]], FData.file "I")],
        Outcome.ok) ∧
    lookupFS [([], FData.dir), (["m"], FData.dir), (["s"], FData.dir),
        (["s", "voiceA.pth"], FData.file "P"), (["s", "voiceA.index"], FData.file "I")]
      (["m"] ++ [destName [([], FData.dir), (["m"], FData.dir), (["s"], FData.dir),
          (["s", "voiceA.pth"], FData.file "P"), (["s", "voiceA.index"], FData.file "I")]
          ["m"] (stemOf (lastName ["s", "voiceA.pth"]))]) = none :=
  pair_import_spec _ ["m"] _ ["s", "voiceA.pth"] ["s", "voiceA.index"] "P" "I"
    (by decide) (by decide) (by decide) (by decide) (by decide)

theorem lastName_concat (l : FPath) (a : String) : lastName (l ++ [a]) = a := by
  unfold lastName
  exact List.getLastD_concat _ _ _

theorem mem_immediateChildren {fs : FS} {d : FPath} {c : String} {x : FData} :
    (c, x) ∈ immediateChildren fs d ↔ (d ++ [c], x) ∈ fs := by
  unfold immediateChildren
  rw [List.mem_filterMap]
  constructor
  · rintro ⟨e, he, hsome⟩
    by_cases hc : e.1 = d ++ [lastName e.1]
    · rw [if_pos hc] at hsome
      have h1 : lastName e.1 = c := congrArg Prod.fst (Option.some.inj hsome)
      have h2 : e.2 = x := congrArg Prod.snd (Option.some.inj hsome)
      have : e = (d ++ [c], x) := Prod.ext (by rw [hc, h1]) h2
      rw [← this]
      exact he
    · rw [if_neg hc] at hsome
      cases hsome
  · intro he
    refine ⟨(d ++ [c], x), he, ?_⟩
    have hlast : lastName (d ++ [c]) = c := lastName_concat d c
    rw [if_pos (by rw [hlast])]
    rw [hlast]

theorem mem_dirNames {fs : FS} {root : FPath} {n : String} :
    n ∈ dirNames fs root ↔ (root ++ [n], FData.dir) ∈ fs := by
  unfold dirNames
  rw [List.mem_filterMap]
  constructor
  · rintro ⟨⟨p, x⟩, he, hsome⟩
    cases x with
    | file c => cases hsome
    | dir =>
      dsimp only at hsome
      by_cases hc : p = root ++ [lastName p]
      · rw [if_pos hc] at hsome
        have h1 : lastName p = n := Option.some.inj hsome
        rw [hc, h1] at he
        exact he
      · rw [if_neg hc] at hsome
        cases hsome
  · intro he
    refine ⟨(root ++ [n], FData.dir), he, ?_⟩
    have hlast : lastName (root ++ [n]) = n := lastName_concat root n
    dsimp only
    rw [if_pos (by rw [hlast])]
    rw [hlast]

theorem dirNames_nodup {fs : FS} (hnd : (fs.map Prod.fst).Nodup) (root : FPath) :
    (dirNames fs root).Nodup := by
  unfold dirNames
  refine List.Nodup.filterMap ?_ (hnd.of_map _)
  rintro ⟨p, x⟩ ⟨p', x'⟩ n hn hn'
  cases x with
  | file c => cases hn
  | dir =>
    cases x' with
    | file c => cases hn'
    | dir =>
      dsimp only at hn hn'
      by_cases hc : p = root ++ [lastName p]
      · rw [if_pos hc] at hn
        by_cases hc' : p' = root ++ [lastName p']
        · rw [if_pos hc'] at hn'
          have h1 : lastName p = n := Option.some.inj (Option.mem_def.mp hn)
          have h2 : lastName p' = n := Option.some.inj (Option.mem_def.mp hn')
          have : p = p' := by rw [hc, hc', h1, h2]
          rw [this]
        · rw [if_neg hc'] at hn'
          cases hn'
      · rw [if_neg hc] at hn
        cases hn

theorem lookupFS_dirList (l : List FPath) (p : FPath) (hl : p ∈ l) :
    lookupFS (l.map (fun q => (q, FData.dir))) p = some FData.dir := by
  induction l with
  | nil => cases hl
  | cons a as ih =>
    simp only [List.map_cons, lookupFS]
    by_cases ha : a = p
    · rw [if_pos ha]
    · rw [if_neg ha]
      rcases List.mem_cons.mp hl with h | h
      · exact absurd h.symm ha
      · exact ih h

theorem folderStatus_empty_iff (fs : FS) (d : FPath) :
    folderStatus fs d = Status.empty ↔ immediateChildren fs d = [] := by
  unfold folderStatus
  rcases h : (immediateChildren fs d).isEmpty with _ | _
  · rw [if_neg (by simp [h])]
    constructor
    · intro hc
      split at hc <;> cases hc
    · intro hc
      rw [hc] at h
      cases h
  · rw [if_pos (by simp [h])]
    simp only [true_iff]
    exact List.isEmpty_iff.mp (by rw [h])

theorem folderStatus_complete_iff (fs : FS) (d : FPath) :
    folderStatus fs d = Status.complete ↔
      immediateChildren fs d ≠ [] ∧
      (immediateChildren fs d).any
        (fun c => isFileData c.2 && (suffixOf c.1 == ".pth")) = true ∧
      (immediateChildren fs d).any
        (fun c => isFileData c.2 && (suffixOf c.1 == ".index")) = true := by
  unfold folderStatus
  rcases h : (immediateChildren fs d).isEmpty with _ | _
  · rw [if_neg (by simp [h])]
    have hne : immediateChildren fs d ≠ [] := by
      intro hc
      rw [hc] at h
      cases h
    rcases hp : (immediateChildren fs d).any
        (fun c => isFileData c.2 && (suffixOf c.1 == ".pth")) with _ | _
    · rw [if_pos (by simp [hp])]
      simp [hp]
    · rcases hi : (immediateChildren fs d).any
          (fun c => isFileData c.2 && (suffixOf c.1 == ".index")) with _ | _
      · rw [if_pos (by simp [hi])]
        simp [hi]
      · rw [if_neg (by simp [hp, hi])]
        simp [hne, hp, hi]
  · rw [if_pos (by simp [h])]
    have hnil : immediateChildren fs d = [] := List.isEmpty_iff.mp (by rw [h])
    simp [hnil]

theorem folderStatus_missing_iff (fs : FS) (d : FPath) :
    folderStatus fs d = Status.missing ↔
      immediateChildren fs d ≠ [] ∧
      ¬((immediateChildren fs d).any
          (fun c => isFileData c.2 && (suffixOf c.1 == ".pth")) = true ∧
        (immediateChildren fs d).any
          (fun c => isFileData c.2 && (suffixOf c.1 == ".index")) = true) := by
  have he := folderStatus_empty_iff fs d
  have hc := folderStatus_complete_iff fs d
  constructor
  · intro hm
    have h1 : immediateChildren fs d ≠ [] := by
      intro hnil
      rw [hm] at he
      cases he.mpr hnil
    refine ⟨h1, fun hpi => ?_⟩
    rw [hm] at hc
    cases hc.mpr ⟨h1, hpi.1, hpi.2⟩
  · rintro ⟨h1, h2⟩
    cases hst : folderStatus fs d with
    | empty => exact absurd (he.mp hst) h1
    | complete =>
      obtain ⟨-, hp, hi⟩ := hc.mp hst
      exact absurd ⟨hp, hi⟩ h2
    | missing => rfl

theorem children_none_iff {fs : FS} {d : FPath} :
    immediateChildren fs d = [] ↔ ∀ c, lookupFS fs (d ++ [c]) = none := by
  constructor
  · intro h c
    rw [lookupFS_eq_none_iff]
    intro x hx
    have hm : (c, x) ∈ immediateChildren fs d := mem_immediateChildren.mpr hx
    rw [h] at hm
    cases hm
  · intro h
    rw [List.eq_nil_iff_forall_not_mem]
    rintro ⟨c, x⟩ hmem
    have hfs := mem_immediateChildren.mp hmem
    have hs := mem_lookupFS_isSome hfs
    rw [h c] at hs
    cases hs

theorem children_exists_iff {fs : FS} {d : FPath} :
    immediateChildren fs d ≠ [] ↔ ∃ c x, lookupFS fs (d ++ [c]) = some x := by
  rw [Ne, children_none_iff]
  push_neg
  constructor
  · rintro ⟨c, hc⟩
    cases hl : lookupFS fs (d ++ [c]) with
    | none => exact absurd hl hc
    | some x => exact ⟨c, x, hl⟩
  · rintro ⟨c, x, hl⟩
    exact ⟨c, by rw [hl]; simp⟩

theorem hasExt_iff {fs : FS} (hnd : (fs.map Prod.fst).Nodup) (d : FPath) (ext : String) :
    (immediateChildren fs d).any
        (fun c => isFileData c.2 && (suffixOf c.1 == ext)) = true ↔
      ∃ c cc, lookupFS fs (d ++ [c]) = some (FData.file cc) ∧ suffixOf c = ext := by
  rw [List.any_eq_true]
  constructor
  · rintro ⟨⟨c, x⟩, hmem, hpred⟩
    rw [Bool.and_eq_true, beq_iff_eq] at hpred
    obtain ⟨hf, hs⟩ := hpred
    cases x with
    | dir => cases hf
    | file cc =>
      exact ⟨c, cc, mem_lookupFS hnd (mem_immediateChildren.mp hmem), hs⟩
  · rintro ⟨c, cc, hl, hs⟩
    refine ⟨(c, FData.file cc), mem_immediateChildren.mpr (lookupFS_mem hl), ?_⟩
    rw [Bool.and_eq_true, beq_iff_eq]
    exact ⟨rfl, hs⟩

/-- C7 counterexample: with the root `a/b` missing and `a` an existing file,
the claim asserts that enumeration creates the root with its parents and
returns the empty listing; the program's `mkdir(parents=True)` instead raises
an uncaught `NotADirectoryError`, so enumeration fails, no listing is
produced, and the root still does not exist afterwards. -/
theorem load_models_missing_root_counterexample :
    lookupFS [([], FData.dir), (["a"], FData.file "x")] ["a", "b"] = none ∧
    load_models [([], FData.dir), (["a"], FData.file "x")] ["a", "b"] =
      ([([], FData.dir), (["a"], FData.file "x")], none) ∧
    lookupFS (load_models [([], FData.dir), (["a"], FData.file "x")] ["a", "b"]).1
      ["a", "b"] = none := by
  decide

/-- C7 (amended): when the Model Root is missing and no prefix of it names an
existing file, enumeration creates the root together with every missing
parent directory and returns the empty listing, and the root exists
afterwards — a missing root alone never makes enumeration fail.  When some
prefix is an existing file, `mkdir(parents=True)` raises and the root is not
created (see the counterexample).  Stated on a well-formed filesystem: every
non-root bound path has a bound parent. -/
theorem load_models_creates_root (fs : FS) (root : FPath)
    (h : lookupFS fs root = none)
    (hpar : parentsOk fs root = true)
    (hwf : ∀ e ∈ fs, e.1 ≠ [] → (lookupFS fs e.1.dropLast).isSome = true) :
    (load_models fs root).1 = mkdirP fs root ∧
    lookupFS (load_models fs root).1 root = some FData.dir ∧
    (∀ q ∈ List.inits root, (lookupFS (load_models fs root).1 q).isSome = true) ∧
    (load_models fs root).2 = some [] := by
  have hex : existsFS fs root = false := by
    simp [existsFS, h]
  have hfs1 : (load_models fs root).1 = mkdirP fs root := by
    unfold load_models
    rw [if_neg (by simp [hex]), if_pos hpar]
  have hlookroot : lookupFS (mkdirP fs root) root = some FData.dir := by
    unfold mkdirP
    rw [lookupFS_append_none _ h]
    apply lookupFS_dirList
    rw [List.mem_filter]
    refine ⟨(List.mem_inits root root).mpr (List.prefix_refl root), ?_⟩
    rw [hex]
    rfl
  have hparents : ∀ q ∈ List.inits root,
      (lookupFS (mkdirP fs root) q).isSome = true := by
    intro q hq
    cases hl : lookupFS fs q with
    | some v =>
      unfold mkdirP
      rw [lookupFS_append_some _ hl]
      rfl
    | none =>
      unfold mkdirP
      rw [lookupFS_append_none _ hl]
      rw [lookupFS_dirList]
      · rfl
      · rw [List.mem_filter]
        exact ⟨hq, by simp [existsFS, hl]⟩
  have hnames : dirNames (mkdirP fs root) root = [] := by
    rw [List.eq_nil_iff_forall_not_mem]
    intro n hn
    have hmem := mem_dirNames.mp hn
    unfold mkdirP at hmem
    rcases List.mem_append.mp hmem with hmem | hmem
    · have hne : (root ++ [n] : FPath) ≠ [] := by simp
      have hp := hwf (root ++ [n], FData.dir) hmem hne
      rw [List.dropLast_concat] at hp
      rw [h] at hp
      cases hp
    · rw [List.mem_map] at hmem
      obtain ⟨q, hq, heq⟩ := hmem
      have hq1 : q = root ++ [n] := congrArg Prod.fst heq
      have hq2 : q <+: root := (List.mem_inits q root).mp (List.mem_filter.mp hq).1
      have hle := hq2.length_le
      rw [hq1] at hle
      simp at hle
  refine ⟨hfs1, by rw [hfs1]; exact hlookroot, ?_, ?_⟩
  · rw [hfs1]
    exact hparents
  · unfold load_models
    rw [if_neg (by simp [hex]), if_pos hpar]
    dsimp only
    rw [hnames]
    rfl

/-- Witness for `load_models_creates_root`: enumerating a two-level root on
the empty filesystem. -/
theorem load_models_creates_root_witness :
    (load_models [] ["base", "m"]).1 = mkdirP [] ["base", "m"] ∧
    lookupFS (load_models [] ["base", "m"]).1 ["base", "m"] = some FData.dir ∧
    (∀ q ∈ List.inits (["base", "m"] : FPath),
      (lookupFS (load_models [] ["base", "m"]).1 q).isSome = true) ∧
    (load_models [] ["base", "m"]).2 = some [] :=
  load_models_creates_root [] ["base", "m"] (by decide) (by decide)
    (fun e he => absurd he (List.not_mem_nil e))

/-- C4: on a filesystem with distinct path bindings and an existing root
directory, the listing produced by `load_models` names exactly the immediate
subdirectories of the Model Root, sorted by name and without duplicates, and
for every listed entry the derived status is: empty iff the folder has no
children of any kind; complete iff it has children and both a `.pth` file and
an `.index` file occur among its immediate file children; and missing-files
otherwise. -/
theorem load_models_spec (fs : FS) (root : FPath)
    (hroot : lookupFS fs root = some FData.dir)
    (hnd : (fs.map Prod.fst).Nodup) :
    ∃ out, load_models fs root = (fs, some out) ∧
    List.Sorted (· ≤ ·) (out.map Prod.fst) ∧
    (out.map Prod.fst).Nodup ∧
    (∀ n : String, n ∈ out.map Prod.fst ↔
      lookupFS fs (root ++ [n]) = some FData.dir) ∧
    (∀ e ∈ out,
      (e.2 = Status.empty ↔ ∀ c, lookupFS fs (root ++ [e.1] ++ [c]) = none) ∧
      (e.2 = Status.complete ↔
        (∃ c x, lookupFS fs (root ++ [e.1] ++ [c]) = some x) ∧
        (∃ c cc, lookupFS fs (root ++ [e.1] ++ [c]) = some (FData.file cc) ∧
          suffixOf c = ".pth") ∧
        (∃ c cc, lookupFS fs (root ++ [e.1] ++ [c]) = some (FData.file cc) ∧
          suffixOf c = ".index")) ∧
      (e.2 = Status.missing ↔
        (∃ c x, lookupFS fs (root ++ [e.1] ++ [c]) = some x) ∧
        ¬((∃ c cc, lookupFS fs (root ++ [e.1] ++ [c]) = some (FData.file cc) ∧
            suffixOf c = ".pth") ∧
          (∃ c cc, lookupFS fs (root ++ [e.1] ++ [c]) = some (FData.file cc) ∧
            suffixOf c = ".index")))) := by
  have hex : existsFS fs root = true := by
    simp [existsFS, hroot]
  have hdir : isDirFS fs root = true := isDirFS_of_lookup hroot
  have hlm : load_models fs root =
      (fs, some ((List.insertionSort (· ≤ ·) (dirNames fs root)).map
        (fun n => (n, folderStatus fs (root ++ [n]))))) := by
    unfold load_models
    rw [if_pos hex, if_pos hdir]
  have hmapfst : ((List.insertionSort (· ≤ ·) (dirNames fs root)).map
      (fun n => (n, folderStatus fs (root ++ [n])))).map Prod.fst =
      List.insertionSort (· ≤ ·) (dirNames fs root) := by
    rw [List.map_map]
    have hcomp : (Prod.fst ∘ fun n : String => (n, folderStatus fs (root ++ [n]))) = id := rfl
    rw [hcomp, List.map_id]
  refine ⟨_, hlm, ?_, ?_, ?_, ?_⟩
  · rw [hmapfst]
    exact List.sorted_insertionSort _ _
  · rw [hmapfst]
    exact (List.perm_insertionSort _ _).nodup_iff.mpr (dirNames_nodup hnd root)
  · intro n
    rw [hmapfst, (List.perm_insertionSort _ _).mem_iff, mem_dirNames]
    exact ⟨mem_lookupFS hnd, lookupFS_mem⟩
  · intro e hmem
    rw [List.mem_map] at hmem
    obtain ⟨n, hn, rfl⟩ := hmem
    dsimp only
    refine ⟨?_, ?_, ?_⟩
    · rw [folderStatus_empty_iff, children_none_iff]
    · rw [folderStatus_complete_iff, children_exists_iff,
        hasExt_iff hnd, hasExt_iff hnd]
    · rw [folderStatus_missing_iff, children_exists_iff,
        hasExt_iff hnd, hasExt_iff hnd]

/-- Witness for `load_models_spec`: a concrete root holding one empty
subdirectory. -/
theorem load_models_spec_witness :
    ∃ out, load_models [(["m"], FData.dir), (["m", "a"], FData.dir)] ["m"] =
      ([(["m"], FData.dir), (["m", "a"], FData.dir)], some out) ∧
    List.Sorted (· ≤ ·) (out.map Prod.fst) ∧
    (out.map Prod.fst).Nodup ∧
    (∀ n : String,
      n ∈ out.map Prod.fst ↔
      lookupFS [(["m"], FData.dir), (["m", "a"], FData.dir)] (["m"] ++ [n]) =
        some FData.dir) ∧
    (∀ e ∈ out,
      (e.2 = Status.empty ↔ ∀ c, lookupFS [(["m"], FData.dir), (["m", "a"], FData.dir)]
        (["m"] ++ [e.1] ++ [c]) = none) ∧
      (e.2 = Status.complete ↔
        (∃ c x, lookupFS [(["m"], FData.dir), (["m", "a"], FData.dir)]
          (["m"] ++ [e.1] ++ [c]) = some x) ∧
        (∃ c cc, lookupFS [(["m"], FData.dir), (["m", "a"], FData.dir)]
          (["m"] ++ [e.1] ++ [c]) = some (FData.file cc) ∧ suffixOf c = ".pth") ∧
        (∃ c cc, lookupFS [(["m"], FData.dir), (["m", "a"], FData.dir)]
          (["m"] ++ [e.1] ++ [c]) = some (FData.file cc) ∧ suffixOf c = ".index")) ∧
      (e.2 = Status.missing ↔
        (∃ c x, lookupFS [(["m"], FData.dir), (["m", "a"], FData.dir)]
          (["m"] ++ [e.1] ++ [c]) = some x) ∧
        ¬((∃ c cc, lookupFS [(["m"], FData.dir), (["m", "a"], FData.dir)]
            (["m"] ++ [e.1] ++ [c]) = some (FData.file cc) ∧ suffixOf c = ".pth") ∧
          (∃ c cc, lookupFS [(["m"], FData.dir), (["m", "a"], FData.dir)]
            (["m"] ++ [e.1] ++ [c]) = some (FData.file cc) ∧
            suffixOf c = ".index")))) :=
  load_models_spec [(["m"], FData.dir), (["m", "a"], FData.dir)] ["m"]
    (by decide) (by decide)

/-- C9: the rename operation builds its source path from the selected item's
displayed text; for an entry whose status is empty or missing-files that text
is the folder name with a glyph appended, which differs from the folder's
actual name, so when no entry carries the glyphed name an actual rename
attempt (confirmed dialog, non-empty input differing from the item text)
reports an error — the failed-rename error, or the name-exists error when the
input collides — and the filesystem, the entry's real folder included, is
unchanged. -/
theorem rename_glyph_spec (fs : FS) (root : FPath) (n newName : String) (st : Status)
    (hst : st = folderStatus fs (root ++ [n])) (hne : st ≠ Status.complete)
    (hdisp : lookupFS fs (root ++ [displayText (n, st)]) = none)
    (h1 : newName ≠ "") (h2 : newName ≠ displayText (n, st)) :
    displayText (n, st) ≠ n ∧
    (rename_model fs root (displayText (n, st)) newName true).1 = fs ∧
    ((rename_model fs root (displayText (n, st)) newName true).2 =
        ROutcome.errRenameFailed ∨
      (rename_model fs root (displayText (n, st)) newName true).2 =
        ROutcome.errExists) := by
  have hmain : rename_model fs root (displayText (n, st)) newName true =
        (fs, ROutcome.errRenameFailed) ∨
      rename_model fs root (displayText (n, st)) newName true =
        (fs, ROutcome.errExists) := by
    unfold rename_model
    rw [if_pos ⟨rfl, h1, h2⟩]
    by_cases hex : existsFS fs (root ++ [newName]) = true
    · rw [if_pos hex]
      exact Or.inr rfl
    · rw [if_neg hex,
        if_neg (show ¬existsFS fs (root ++ [displayText (n, st)]) = true by
          simp [existsFS, hdisp])]
      exact Or.inl rfl
  have hglyph : displayText (n, st) ≠ n := by
    cases st with
    | complete => exact absurd rfl hne
    | empty =>
      intro hh
      have hlen := congrArg (fun s => s.data.length) hh
      simp [displayText, String.data_append] at hlen
    | missing =>
      intro hh
      have hlen := congrArg (fun s => s.data.length) hh
      simp [displayText, String.data_append] at hlen
  rcases hmain with hm | hm <;> rw [hm]
  · exact ⟨hglyph, rfl, Or.inl rfl⟩
  · exact ⟨hglyph, rfl, Or.inr rfl⟩

/-- Witness for `rename_glyph_spec`: renaming the empty folder `a`, listed as
the glyphed text, to the fresh name `b` on a concrete filesystem. -/
theorem rename_glyph_spec_witness :
    displayText ("a", Status.empty) ≠ "a" ∧
    (rename_model [([], FData.dir), (["m"], FData.dir), (["m", "a"], FData.dir)]
      ["m"] (displayText ("a", Status.empty)) "b" true).1 =
      [([], FData.dir), (["m"], FData.dir), (["m", "a"], FData.dir)] ∧
    ((rename_model [([], FData.dir), (["m"], FData.dir), (["m", "a"], FData.dir)]
        ["m"] (displayText ("a", Status.empty)) "b" true).2 =
        ROutcome.errRenameFailed ∨
      (rename_model [([], FData.dir), (["m"], FData.dir), (["m", "a"], FData.dir)]
        ["m"] (displayText ("a", Status.empty)) "b" true).2 =
        ROutcome.errExists) :=
  rename_glyph_spec [([], FData.dir), (["m"], FData.dir), (["m", "a"], FData.dir)]
    ["m"] "a" "b" Status.empty (by decide) (by decide) (by decide) (by decide)
    (by decide)

end RVC
